import Mathlib

/-!
Shallow embedding of `src/reduce.py` (bluecube-it/osm-map-manager).

Modelling conventions:
* Coordinates are exact rationals (`ℚ × ℚ`); Python's `round(x, n)` is
  round-half-to-even on the scaled value (`pyRound`, `roundTo`).
* Python dicts used in insertion order (`self.nodes`, `self.ways`,
  `self.osm_data`, `self.node_cache`) become association lists; dict
  indexing becomes `alookup` (new bindings are prepended, so a repeated
  key shadows the old binding exactly like a dict overwrite).
* Writing to the PBF sink becomes returning the list of emitted
  `OutputNode`s / `OutputWay`s.
* A Python `ZeroDivisionError` (the division `score / len(ls_coords)` in
  `find_matching_tags`) is modelled with `Except Unit`.
* The file-system effects of `run_conversion` (delete a pre-existing
  output file, then open/parse the GeoJSON file) are modelled by the
  state record `FS` threaded through `runConversion`.
-/

set_option maxRecDepth 4000

deriving instance DecidableEq for Except

abbrev Coord : Type := ℚ × ℚ

abbrev Tags : Type := List (String × String)

/-- Python `round` on an exact rational: round half to even. -/
def pyRound (q : ℚ) : ℤ :=
  let f : ℤ := ⌊q⌋
  if q - f < 1/2 then f
  else if 1/2 < q - f then f + 1
  else if f % 2 = 0 then f else f + 1

/-- Python `round(x, n)`: round to `n` decimal places. -/
def roundTo (n : ℕ) (q : ℚ) : ℚ := (pyRound (q * 10 ^ n) : ℚ) / 10 ^ n

/-- Quantisation used by `find_matching_tags` (6 decimals, `reduce.py` lines 63 and 68). -/
def quant6 (c : Coord) : Coord := (roundTo 6 c.1, roundTo 6 c.2)

/-- Snap key used by `add_linestring` (7 decimals, `reduce.py` line 98). -/
def snapKey (c : Coord) : Coord := (roundTo 7 c.1, roundTo 7 c.2)

/-- Association-list lookup: Python dict indexing / `in` membership. -/
def alookup {α β : Type} [DecidableEq α] (k : α) : List (α × β) → Option β
  | [] => none
  | (a, b) :: rest => if k = a then some b else alookup k rest

/-- One entry of `OSMDataExtractor.ways`: the value `{'tags': ..., 'coords': ...}` (lines 42-45). -/
structure WayData where
  tags : Tags
  coords : List Coord
deriving DecidableEq

/-- Mutable state of `OSMDataExtractor` (lines 20-23). -/
structure ExtractorState where
  nodes : List (ℤ × Coord)
  ways : List (ℤ × WayData)
deriving DecidableEq

/-- Handler `OSMDataExtractor.node` (lines 25-27): store the node's coordinate. -/
def nodeHandler (st : ExtractorState) (nid : ℤ) (c : Coord) : ExtractorState :=
  { st with nodes := (nid, c) :: st.nodes }

/-- Handler `OSMDataExtractor.way` (lines 29-45): keep the way only if it is tagged
`highway` and at least two of its node references resolve; unresolvable
references are dropped. -/
def wayHandler (st : ExtractorState) (wid : ℤ) (nodeRefs : List ℤ) (tags : Tags) :
    ExtractorState :=
  if "highway" ∈ tags.map Prod.fst then
    let coords := nodeRefs.filterMap (fun r => alookup r st.nodes)
    if 2 ≤ coords.length then
      { st with ways := st.ways ++ [(wid, ⟨tags, coords⟩)] }
    else st
  else st

/-- A node written to the output sink by `writer.add_node` (lines 102-105). -/
structure OutputNode where
  id : ℕ
  location : Coord
deriving DecidableEq

/-- A way written to the output sink by `writer.add_way` (lines 112-116). -/
structure OutputWay where
  id : ℕ
  nodes : List ℕ
  tags : Tags
deriving DecidableEq

/-- Mutable state of `OSMCreator` (lines 51-56). -/
structure CreatorState where
  osmData : List (ℤ × WayData)
  nodeId : ℕ
  wayId : ℕ
  nodeCache : List (Coord × ℕ)
deriving DecidableEq

/-- Constructor `OSMCreator.__init__` (lines 51-56). -/
def initCreator (osmData : List (ℤ × WayData)) : CreatorState :=
  ⟨osmData, 1, 1, []⟩

/-- Fallback tags of `add_linestring` (lines 86-91). -/
def fallbackTags : Tags :=
  [("highway", "unclassified"), ("oneway", "no"), ("source", "custom_geojson")]

/-- Cardinality of the Python set intersection on line 70. -/
def interScore (ls ws : List Coord) : ℕ :=
  ((ls.dedup).filter (fun c => c ∈ ws)).length

/-- The per-road value on line 71 of the source. -/
def ratioOf (ls ws : List Coord) : ℚ :=
  (interScore ls ws : ℚ) / (ls.length : ℚ)

/-- Loop of `find_matching_tags` (lines 67-75).  The division on line 71 raises
`ZeroDivisionError` when the line has no coordinates and the loop body runs. -/
def fmtLoop (lsCoords : List Coord) :
    List (ℤ × WayData) → Option Tags → ℚ → Except Unit (Option Tags × ℚ)
  | [], best, maxScore => .ok (best, maxScore)
  | e :: rest, best, maxScore =>
    if lsCoords.length = 0 then .error ()
    else
      let r := ratioOf lsCoords ((e.2.coords).map quant6)
      if maxScore < r then fmtLoop lsCoords rest (some e.2.tags) r
      else fmtLoop lsCoords rest best maxScore

/-- Method `OSMCreator.find_matching_tags` (lines 58-78). -/
def findMatchingTags (osmData : List (ℤ × WayData)) (lineCoords : List Coord) :
    Except Unit (Option Tags) :=
  match fmtLoop (lineCoords.map quant6) osmData none 0 with
  | .error e => .error e
  | .ok (best, maxScore) => .ok (if 1/2 < maxScore then best else none)

/-- One iteration of the snapping loop of `add_linestring` (lines 96-109):
emit a new node (at the rounded key, line 102) when the key is unseen,
and return the node reference appended to `way_node_refs`. -/
def snapStep (st : CreatorState) (c : Coord) : CreatorState × List OutputNode × ℕ :=
  match alookup (snapKey c) st.nodeCache with
  | some nid => (st, [], nid)
  | none =>
    ({ st with
        nodeId := st.nodeId + 1,
        nodeCache := (snapKey c, st.nodeId) :: st.nodeCache },
      [⟨st.nodeId, snapKey c⟩], st.nodeId)

/-- The full snapping loop of `add_linestring` over a coordinate list. -/
def snapLine (st : CreatorState) : List Coord → CreatorState × List OutputNode × List ℕ
  | [] => (st, [], [])
  | c :: cs =>
    let s1 := snapStep st c
    let s2 := snapLine s1.1 cs
    (s2.1, s1.2.1 ++ s2.2.1, s1.2.2 :: s2.2.2)

/-- Method `OSMCreator.add_linestring` (lines 80-117): match tags (falling back
to `fallbackTags` when the result is `None` or empty, Python truthiness),
snap every coordinate, then emit one way. -/
def addLinestring (st : CreatorState) (coords : List Coord) :
    Except Unit (CreatorState × List OutputNode × OutputWay) :=
  match findMatchingTags st.osmData coords with
  | .error e => .error e
  | .ok tagsOpt =>
    let tags :=
      match tagsOpt with
      | none => fallbackTags
      | some t => if t = [] then fallbackTags else t
    let s := snapLine st coords
    .ok ({ s.1 with wayId := s.1.wayId + 1 }, s.2.1, ⟨s.1.wayId, s.2.2, tags⟩)

/-- The emission loop of `run_conversion` (lines 152-153): add every
linestring in order, collecting the emitted nodes and ways. -/
def runLines (st : CreatorState) :
    List (List Coord) → Except Unit (CreatorState × List OutputNode × List OutputWay)
  | [] => .ok (st, [], [])
  | l :: ls =>
    match addLinestring st l with
    | .error e => .error e
    | .ok r1 =>
      match runLines r1.1 ls with
      | .error e => .error e
      | .ok r2 => .ok (r2.1, r1.2.1 ++ r2.2.1, r1.2.2 :: r2.2.2)

/-- A parsed GeoJSON feature geometry (`shape(f['geometry'])`, lines 136-141). -/
inductive Geometry where
  | lineString (coords : List Coord)
  | multiLineString (parts : List (List Coord))
  | unsupported
deriving DecidableEq

/-- The flattening loop of `run_conversion` (lines 135-141): a `LineString` is
appended, a `MultiLineString` contributes each of its parts, anything else
is skipped. -/
def collectLinestrings (features : List Geometry) : List (List Coord) :=
  features.flatMap fun g =>
    match g with
    | .lineString cs => [cs]
    | .multiLineString ps => ps
    | .unsupported => []

/-- File-system state seen by `run_conversion`: whether the output file exists,
and the parse result of the GeoJSON file (`none` models a missing or
malformed file whose `open`/`json.load` raises). -/
structure FS where
  outputExists : Bool
  geojson : Option (List Geometry)
deriving DecidableEq

/-- Function `run_conversion` (lines 123-156): delete a pre-existing output file
(lines 124-126), then open and parse the GeoJSON file (lines 130-131), then
emit every collected linestring. -/
def runConversion (fs : FS) (osmData : List (ℤ × WayData)) :
    FS × Except Unit (List OutputNode × List OutputWay) :=
  let fs1 := if fs.outputExists then { fs with outputExists := false } else fs
  match fs.geojson with
  | none => (fs1, .error ())
  | some features =>
    match runLines (initCreator osmData) (collectLinestrings features) with
    | .error e => (fs1, .error e)
    | .ok r => ({ fs1 with outputExists := true }, .ok (r.2.1, r.2.2))

/-- Locations of the nodes emitted by one `addLinestring` call (projection
helper for stating counterexamples). -/
def emittedLocs (r : Except Unit (CreatorState × List OutputNode × OutputWay)) :
    List Coord :=
  match r with
  | .error _ => []
  | .ok x => x.2.1.map OutputNode.location


/-- First occurrences, in encounter order, of the elements of a list that are
not already in `ks` (the specification of which snap keys get a fresh node). -/
def newKeys {α : Type} [DecidableEq α] (ks : List α) : List α → List α
  | [] => []
  | a :: l => if a ∈ ks then newKeys ks l else a :: newKeys (a :: ks) l

/-- Modelled from the spec (claim C1): the match value the specification
prescribes, `overlap / |L|`, where `L` is the set of distinct quantised
coordinates of the line (duplicates collapse) and `overlap = |L ∩ R|`. -/
def specRatioC1 (ls ws : List Coord) : ℚ :=
  ((ls.toFinset ∩ ws.toFinset).card : ℚ) / (ls.toFinset.card : ℚ)

theorem alookup_cons {α β : Type} [DecidableEq α] (k a : α) (b : β) (l : List (α × β)) :
    alookup k ((a, b) :: l) = if k = a then some b else alookup k l := rfl

theorem alookup_isSome_iff {α β : Type} [DecidableEq α] (l : List (α × β)) (k : α) :
    (alookup k l).isSome ↔ k ∈ l.map Prod.fst := by
  induction l with
  | nil => simp [alookup]
  | cons p l ih =>
    obtain ⟨a, b⟩ := p
    by_cases h : k = a <;> simp [alookup_cons, h, ih]

theorem alookup_eq_none_iff {α β : Type} [DecidableEq α] (l : List (α × β)) (k : α) :
    alookup k l = none ↔ k ∉ l.map Prod.fst := by
  rw [← alookup_isSome_iff]
  cases alookup k l <;> simp

theorem newKeys_mem {α : Type} [DecidableEq α] (l : List α) :
    ∀ (ks : List α) (b : α), b ∈ newKeys ks l ↔ b ∈ l ∧ b ∉ ks := by
  induction l with
  | nil => intro ks b; simp [newKeys]
  | cons a l ih =>
    intro ks b
    by_cases ha : a ∈ ks
    · simp only [newKeys, if_pos ha, ih, List.mem_cons]
      constructor
      · rintro ⟨h1, h2⟩; exact ⟨Or.inr h1, h2⟩
      · rintro ⟨h1 | h1, h2⟩
        · exact absurd (h1 ▸ ha) h2
        · exact ⟨h1, h2⟩
    · simp only [newKeys, if_neg ha, List.mem_cons, ih]
      constructor
      · rintro (rfl | ⟨h1, h2⟩)
        · exact ⟨Or.inl rfl, ha⟩
        · exact ⟨Or.inr h1, fun hk => h2 (Or.inr hk)⟩
      · rintro ⟨rfl | h1, h2⟩
        · exact Or.inl rfl
        · by_cases hba : b = a
          · exact Or.inl hba
          · exact Or.inr ⟨h1, by simp [List.mem_cons, hba, h2]⟩

theorem newKeys_nodup {α : Type} [DecidableEq α] (l : List α) :
    ∀ ks : List α, (newKeys ks l).Nodup := by
  induction l with
  | nil => intro ks; simp [newKeys]
  | cons a l ih =>
    intro ks
    by_cases ha : a ∈ ks
    · simp only [newKeys, if_pos ha]; exact ih ks
    · simp only [newKeys, if_neg ha]
      refine List.nodup_cons.mpr ⟨?_, ih _⟩
      intro hmem
      exact ((newKeys_mem _ _ _).1 hmem).2 (List.mem_cons_self a ks)

theorem newKeys_nil_toFinset {α : Type} [DecidableEq α] (l : List α) :
    (newKeys [] l).toFinset = l.toFinset := by
  ext b
  simp [List.mem_toFinset, newKeys_mem]

theorem newKeys_nil_length {α : Type} [DecidableEq α] (l : List α) :
    (newKeys [] l).length = l.toFinset.card := by
  rw [← newKeys_nil_toFinset, List.toFinset_card_of_nodup (newKeys_nodup l [])]

theorem snapStep_osmData (st : CreatorState) (c : Coord) :
    (snapStep st c).1.osmData = st.osmData := by
  cases hs : alookup (snapKey c) st.nodeCache <;> simp [snapStep, hs]

theorem snapStep_wayId (st : CreatorState) (c : Coord) :
    (snapStep st c).1.wayId = st.wayId := by
  cases hs : alookup (snapKey c) st.nodeCache <;> simp [snapStep, hs]

theorem snapStep_lookup_self (st : CreatorState) (c : Coord) :
    alookup (snapKey c) (snapStep st c).1.nodeCache = some (snapStep st c).2.2 := by
  cases hs : alookup (snapKey c) st.nodeCache with
  | some nid => simp [snapStep, hs]
  | none => simp [snapStep, hs, alookup_cons]

theorem snapStep_lookup_mono (st : CreatorState) (c : Coord) (k : Coord) (v : ℕ)
    (h : alookup k st.nodeCache = some v) :
    alookup k (snapStep st c).1.nodeCache = some v := by
  cases hs : alookup (snapKey c) st.nodeCache with
  | some nid => simpa [snapStep, hs] using h
  | none =>
    simp only [snapStep, hs, alookup_cons]
    by_cases hk : k = snapKey c
    · rw [hk] at h; rw [h] at hs; cases hs
    · simp [hk, h]

theorem snapLine_osmData (cs : List Coord) :
    ∀ st : CreatorState, (snapLine st cs).1.osmData = st.osmData := by
  induction cs with
  | nil => intro st; simp [snapLine]
  | cons c cs ih =>
    intro st
    simp only [snapLine]
    rw [ih]
    exact snapStep_osmData st c

theorem snapLine_wayId (cs : List Coord) :
    ∀ st : CreatorState, (snapLine st cs).1.wayId = st.wayId := by
  induction cs with
  | nil => intro st; simp [snapLine]
  | cons c cs ih =>
    intro st
    simp only [snapLine]
    rw [ih]
    exact snapStep_wayId st c

theorem snapLine_nodeId (cs : List Coord) :
    ∀ st : CreatorState,
      (snapLine st cs).1.nodeId = st.nodeId + (snapLine st cs).2.1.length := by
  induction cs with
  | nil => intro st; simp [snapLine]
  | cons c cs ih =>
    intro st
    cases hs : alookup (snapKey c) st.nodeCache with
    | some nid =>
      simp only [snapLine, snapStep, hs]
      rw [ih]
      simp
    | none =>
      simp only [snapLine, snapStep, hs]
      rw [ih]
      simp only [List.length_append, List.length_cons, List.length_nil]
      omega

theorem snapLine_ids (cs : List Coord) :
    ∀ st : CreatorState,
      (snapLine st cs).2.1.map OutputNode.id
        = List.range' st.nodeId (snapLine st cs).2.1.length := by
  induction cs with
  | nil => intro st; simp [snapLine]
  | cons c cs ih =>
    intro st
    cases hs : alookup (snapKey c) st.nodeCache with
    | some nid =>
      simp only [snapLine, snapStep, hs, List.nil_append]
      exact ih st
    | none =>
      simp only [snapLine, snapStep, hs, List.singleton_append, List.map_cons,
        List.length_cons]
      rw [ih]
      simp [List.range'_succ]

theorem snapLine_locs (cs : List Coord) :
    ∀ st : CreatorState,
      (snapLine st cs).2.1.map OutputNode.location
        = newKeys (st.nodeCache.map Prod.fst) (cs.map snapKey) := by
  induction cs with
  | nil => intro st; simp [snapLine, newKeys]
  | cons c cs ih =>
    intro st
    cases hs : alookup (snapKey c) st.nodeCache with
    | some nid =>
      have hmem : snapKey c ∈ st.nodeCache.map Prod.fst := by
        rw [← alookup_isSome_iff st.nodeCache (snapKey c), hs]; rfl
      simp only [snapLine, snapStep, hs, List.nil_append, List.map_cons, newKeys,
        if_pos hmem]
      exact ih st
    | none =>
      have hmem : snapKey c ∉ st.nodeCache.map Prod.fst :=
        (alookup_eq_none_iff st.nodeCache (snapKey c)).1 hs
      simp only [snapLine, snapStep, hs, List.singleton_append, List.map_cons, newKeys,
        if_neg hmem]
      rw [ih]
      simp

theorem snapLine_cacheKeys (cs : List Coord) :
    ∀ st : CreatorState,
      (snapLine st cs).1.nodeCache.map Prod.fst
        = ((snapLine st cs).2.1.map OutputNode.location).reverse
            ++ st.nodeCache.map Prod.fst := by
  induction cs with
  | nil => intro st; simp [snapLine]
  | cons c cs ih =>
    intro st
    cases hs : alookup (snapKey c) st.nodeCache with
    | some nid =>
      simp only [snapLine, snapStep, hs, List.nil_append]
      exact ih st
    | none =>
      simp only [snapLine, snapStep, hs, List.singleton_append, List.map_cons,
        List.reverse_cons]
      rw [ih]
      simp

theorem snapLine_lookup_mono (cs : List Coord) :
    ∀ (st : CreatorState) (k : Coord) (v : ℕ),
      alookup k st.nodeCache = some v
        → alookup k (snapLine st cs).1.nodeCache = some v := by
  induction cs with
  | nil => intro st k v h; simpa [snapLine] using h
  | cons c cs ih =>
    intro st k v h
    simp only [snapLine]
    exact ih _ k v (snapStep_lookup_mono st c k v h)

theorem snapLine_refs_len (cs : List Coord) :
    ∀ st : CreatorState, (snapLine st cs).2.2.length = cs.length := by
  induction cs with
  | nil => intro st; simp [snapLine]
  | cons c cs ih =>
    intro st
    simp only [snapLine, List.length_cons, ih]

theorem snapLine_refs (cs : List Coord) :
    ∀ (st : CreatorState) (p : ℕ) (c0 : Coord),
      cs[p]? = some c0
        → (snapLine st cs).2.2[p]?
            = alookup (snapKey c0) (snapLine st cs).1.nodeCache := by
  induction cs with
  | nil => intro st p c0 h; simp at h
  | cons c cs ih =>
    intro st p c0 h
    cases p with
    | zero =>
      simp only [List.getElem?_cons_zero, Option.some_inj] at h
      subst h
      simp only [snapLine, List.getElem?_cons_zero]
      have h1 := snapStep_lookup_self st c
      exact (snapLine_lookup_mono cs _ _ _ h1).symm
    | succ p =>
      simp only [List.getElem?_cons_succ] at h
      simp only [snapLine, List.getElem?_cons_succ]
      exact ih _ p c0 h

theorem snapLine_origin (cs : List Coord) :
    ∀ (st : CreatorState) (n : OutputNode),
      n ∈ (snapLine st cs).2.1 → ∃ c0 ∈ cs, n.location = snapKey c0 := by
  induction cs with
  | nil => intro st n h; simp [snapLine] at h
  | cons c cs ih =>
    intro st n h
    simp only [snapLine, List.mem_append] at h
    rcases h with h | h
    · cases hs : alookup (snapKey c) st.nodeCache with
      | some nid => simp [snapStep, hs] at h
      | none =>
        rw [show (snapStep st c).2.1 = [⟨st.nodeId, snapKey c⟩] by simp [snapStep, hs]]
          at h
        simp only [List.mem_singleton] at h
        subst h
        exact ⟨c, List.mem_cons_self c cs, rfl⟩
    · obtain ⟨c0, hc0, hloc⟩ := ih _ n h
      exact ⟨c0, List.mem_cons_of_mem c hc0, hloc⟩

theorem newKeys_append {α : Type} [DecidableEq α] (l1 : List α) :
    ∀ (ks l2 : List α),
      newKeys ks (l1 ++ l2)
        = newKeys ks l1 ++ newKeys ((newKeys ks l1).reverse ++ ks) l2 := by
  induction l1 with
  | nil => intro ks l2; simp [newKeys]
  | cons a l1 ih =>
    intro ks l2
    by_cases ha : a ∈ ks
    · rw [List.cons_append]
      simp only [newKeys, if_pos ha]
      exact ih ks l2
    · rw [List.cons_append]
      simp only [newKeys, if_neg ha, List.reverse_cons]
      rw [ih (a :: ks) l2]
      simp [List.append_assoc]

theorem addLinestring_ok (st : CreatorState) (coords : List Coord)
    (st' : CreatorState) (ns : List OutputNode) (w : OutputWay)
    (h : addLinestring st coords = .ok (st', ns, w)) :
    ns = (snapLine st coords).2.1
    ∧ w.nodes = (snapLine st coords).2.2
    ∧ w.id = st.wayId
    ∧ st' = { (snapLine st coords).1 with wayId := (snapLine st coords).1.wayId + 1 } := by
  unfold addLinestring at h
  cases hf : findMatchingTags st.osmData coords with
  | error e => rw [hf] at h; exact Except.noConfusion h
  | ok tagsOpt =>
    rw [hf] at h
    simp only [Except.ok.injEq, Prod.mk.injEq] at h
    obtain ⟨h1, h2, h3⟩ := h
    refine ⟨h2.symm, ?_, ?_, h1.symm⟩
    · rw [← h3]
    · rw [← h3]
      exact snapLine_wayId coords st

theorem addLinestring_fallback (st : CreatorState) (coords : List Coord)
    (h : findMatchingTags st.osmData coords = .ok none) :
    ∃ st' ns w, addLinestring st coords = .ok (st', ns, w) ∧ w.tags = fallbackTags := by
  refine ⟨{ (snapLine st coords).1 with wayId := (snapLine st coords).1.wayId + 1 },
    (snapLine st coords).2.1,
    ⟨(snapLine st coords).1.wayId, (snapLine st coords).2.2, fallbackTags⟩, ?_, rfl⟩
  simp [addLinestring, h]

theorem runLines_cons_ok (st : CreatorState) (l : List Coord) (ls : List (List Coord))
    (st' : CreatorState) (ns : List OutputNode) (ways : List OutputWay)
    (h : runLines st (l :: ls) = .ok (st', ns, ways)) :
    ∃ r1 r2, addLinestring st l = .ok r1 ∧ runLines r1.1 ls = .ok r2
      ∧ st' = r2.1 ∧ ns = r1.2.1 ++ r2.2.1 ∧ ways = r1.2.2 :: r2.2.2 := by
  unfold runLines at h
  cases h1 : addLinestring st l with
  | error e => rw [h1] at h; exact Except.noConfusion h
  | ok r1 =>
    rw [h1] at h
    have h3 : (match runLines r1.1 ls with
        | Except.error e => Except.error e
        | Except.ok r2 => Except.ok (r2.1, r1.2.1 ++ r2.2.1, r1.2.2 :: r2.2.2))
        = Except.ok (st', ns, ways) := h
    clear h
    revert h3
    cases h2 : runLines r1.1 ls with
    | error e => intro h3; exact Except.noConfusion h3
    | ok r2 =>
      intro h3
      simp only [Except.ok.injEq, Prod.mk.injEq] at h3
      exact ⟨r1, r2, rfl, h2, h3.1.symm, h3.2.1.symm, h3.2.2.symm⟩

theorem runLines_nil_ok (st : CreatorState) (st' : CreatorState)
    (ns : List OutputNode) (ways : List OutputWay)
    (h : runLines st [] = .ok (st', ns, ways)) :
    st' = st ∧ ns = [] ∧ ways = [] := by
  unfold runLines at h
  simp only [Except.ok.injEq, Prod.mk.injEq] at h
  exact ⟨h.1.symm, h.2.1.symm, h.2.2.symm⟩

theorem mem_of_getElem_some {α : Type} {l : List α} {i : ℕ} {a : α}
    (h : l[i]? = some a) : a ∈ l := by
  obtain ⟨hlt, rfl⟩ := List.getElem?_eq_some_iff.1 h
  exact List.getElem_mem hlt

theorem runLines_nodes (lines : List (List Coord)) :
    ∀ (st st' : CreatorState) (ns : List OutputNode) (ways : List OutputWay),
      runLines st lines = .ok (st', ns, ways)
        → st'.nodeId = st.nodeId + ns.length
          ∧ ns.map OutputNode.id = List.range' st.nodeId ns.length := by
  induction lines with
  | nil =>
    intro st st' ns ways h
    obtain ⟨rfl, rfl, rfl⟩ := runLines_nil_ok st st' ns ways h
    simp
  | cons l ls ih =>
    intro st st' ns ways h
    obtain ⟨r1, r2, h1, h2, hst, hns, hways⟩ := runLines_cons_ok st l ls st' ns ways h
    obtain ⟨e1, e2, e3, e4⟩ := addLinestring_ok st l r1.1 r1.2.1 r1.2.2 h1
    obtain ⟨i1, i2⟩ := ih r1.1 r2.1 r2.2.1 r2.2.2 h2
    have hn1 : r1.1.nodeId = st.nodeId + r1.2.1.length := by
      rw [e4, e1]
      exact snapLine_nodeId l st
    have hids1 : r1.2.1.map OutputNode.id = List.range' st.nodeId r1.2.1.length := by
      rw [e1]
      exact snapLine_ids l st
    subst hst hns
    constructor
    · rw [i1, hn1]
      simp only [List.length_append]
      omega
    · rw [List.map_append, hids1, i2, hn1, List.length_append]
      have := List.range'_append st.nodeId r1.2.1.length r2.2.1.length 1
      rw [one_mul] at this
      rw [Nat.add_comm r1.2.1.length r2.2.1.length, ← this]

theorem runLines_locs (lines : List (List Coord)) :
    ∀ (st st' : CreatorState) (ns : List OutputNode) (ways : List OutputWay),
      runLines st lines = .ok (st', ns, ways)
        → ns.map OutputNode.location
            = newKeys (st.nodeCache.map Prod.fst) (lines.flatten.map snapKey)
          ∧ st'.nodeCache.map Prod.fst
            = (ns.map OutputNode.location).reverse ++ st.nodeCache.map Prod.fst := by
  induction lines with
  | nil =>
    intro st st' ns ways h
    obtain ⟨rfl, rfl, rfl⟩ := runLines_nil_ok st st' ns ways h
    simp [newKeys]
  | cons l ls ih =>
    intro st st' ns ways h
    obtain ⟨r1, r2, h1, h2, hst, hns, hways⟩ := runLines_cons_ok st l ls st' ns ways h
    obtain ⟨e1, e2, e3, e4⟩ := addLinestring_ok st l r1.1 r1.2.1 r1.2.2 h1
    obtain ⟨i1, i2⟩ := ih r1.1 r2.1 r2.2.1 r2.2.2 h2
    have hcache1 : r1.1.nodeCache = (snapLine st l).1.nodeCache := by rw [e4]
    have hlocs1 : r1.2.1.map OutputNode.location
        = newKeys (st.nodeCache.map Prod.fst) (l.map snapKey) := by
      rw [e1]
      exact snapLine_locs l st
    have hkeys1 : r1.1.nodeCache.map Prod.fst
        = (r1.2.1.map OutputNode.location).reverse ++ st.nodeCache.map Prod.fst := by
      rw [hcache1, e1]
      exact snapLine_cacheKeys l st
    subst hst hns
    constructor
    · rw [List.map_append, List.flatten_cons, List.map_append,
        newKeys_append (l.map snapKey) (st.nodeCache.map Prod.fst)
          (ls.flatten.map snapKey), ← hlocs1, i1, hkeys1, hlocs1]
    · rw [List.map_append, List.reverse_append, i2, hkeys1, List.append_assoc]

theorem runLines_lookup_mono (lines : List (List Coord)) :
    ∀ (st st' : CreatorState) (ns : List OutputNode) (ways : List OutputWay)
      (k : Coord) (v : ℕ),
      runLines st lines = .ok (st', ns, ways)
        → alookup k st.nodeCache = some v
        → alookup k st'.nodeCache = some v := by
  induction lines with
  | nil =>
    intro st st' ns ways k v h hk
    obtain ⟨rfl, -, -⟩ := runLines_nil_ok st st' ns ways h
    exact hk
  | cons l ls ih =>
    intro st st' ns ways k v h hk
    obtain ⟨r1, r2, h1, h2, hst, -, -⟩ := runLines_cons_ok st l ls st' ns ways h
    obtain ⟨-, -, -, e4⟩ := addLinestring_ok st l r1.1 r1.2.1 r1.2.2 h1
    subst hst
    refine ih r1.1 r2.1 r2.2.1 r2.2.2 k v h2 ?_
    rw [e4]
    exact snapLine_lookup_mono l st k v hk

theorem runLines_wayIds (lines : List (List Coord)) :
    ∀ (st st' : CreatorState) (ns : List OutputNode) (ways : List OutputWay),
      runLines st lines = .ok (st', ns, ways)
        → ways.map OutputWay.id = List.range' st.wayId ways.length
          ∧ ways.length = lines.length
          ∧ st'.wayId = st.wayId + lines.length := by
  induction lines with
  | nil =>
    intro st st' ns ways h
    obtain ⟨rfl, rfl, rfl⟩ := runLines_nil_ok st st' ns ways h
    simp
  | cons l ls ih =>
    intro st st' ns ways h
    obtain ⟨r1, r2, h1, h2, hst, hns, hways⟩ := runLines_cons_ok st l ls st' ns ways h
    obtain ⟨e1, e2, e3, e4⟩ := addLinestring_ok st l r1.1 r1.2.1 r1.2.2 h1
    obtain ⟨i1, i2, i3⟩ := ih r1.1 r2.1 r2.2.1 r2.2.2 h2
    have hw1 : r1.1.wayId = st.wayId + 1 := by
      rw [e4]
      simp [snapLine_wayId l st]
    subst hst hways
    refine ⟨?_, ?_, ?_⟩
    · rw [List.map_cons, e3, i1, hw1]
      simp [List.range'_succ]
    · simp [i2]
    · rw [i3, hw1, List.length_cons]
      omega

theorem runLines_refs (lines : List (List Coord)) :
    ∀ (st st' : CreatorState) (ns : List OutputNode) (ways : List OutputWay),
      runLines st lines = .ok (st', ns, ways)
        → ∀ (i : ℕ) (l : List Coord) (w : OutputWay),
            lines[i]? = some l → ways[i]? = some w
              → w.nodes.length = l.length
                ∧ ∀ (p : ℕ) (c0 : Coord), l[p]? = some c0
                    → w.nodes[p]? = alookup (snapKey c0) st'.nodeCache := by
  induction lines with
  | nil => intro st st' ns ways h i l w hl; simp at hl
  | cons l0 ls ih =>
    intro st st' ns ways h i l w hl hw
    obtain ⟨r1, r2, h1, h2, hst, hns, hways⟩ := runLines_cons_ok st l0 ls st' ns ways h
    obtain ⟨e1, e2, e3, e4⟩ := addLinestring_ok st l0 r1.1 r1.2.1 r1.2.2 h1
    subst hst hways
    cases i with
    | zero =>
      simp only [List.getElem?_cons_zero, Option.some_inj] at hl hw
      subst hl hw
      constructor
      · rw [e2, snapLine_refs_len]
      · intro p c0 hp
        have hr := snapLine_refs l0 st p c0 hp
        rw [← e2] at hr
        have hlen : p < r1.2.2.nodes.length := by
          rw [e2, snapLine_refs_len]
          exact (List.getElem?_eq_some_iff.1 hp).1
        obtain ⟨v, hv⟩ : ∃ v, r1.2.2.nodes[p]? = some v :=
          ⟨r1.2.2.nodes[p], List.getElem?_eq_some_iff.2 ⟨hlen, rfl⟩⟩
        rw [hv] at hr
        rw [hv]
        refine (runLines_lookup_mono ls r1.1 r2.1 r2.2.1 r2.2.2 (snapKey c0) v h2 ?_).symm
        rw [e4]
        exact hr.symm
    | succ i =>
      simp only [List.getElem?_cons_succ] at hl hw
      exact ih r1.1 r2.1 r2.2.1 r2.2.2 h2 i l w hl hw

theorem runLines_origin (lines : List (List Coord)) :
    ∀ (st st' : CreatorState) (ns : List OutputNode) (ways : List OutputWay),
      runLines st lines = .ok (st', ns, ways)
        → ∀ n ∈ ns, ∃ c0 ∈ lines.flatten, n.location = snapKey c0 := by
  induction lines with
  | nil =>
    intro st st' ns ways h n hn
    obtain ⟨-, rfl, -⟩ := runLines_nil_ok st st' ns ways h
    simp at hn
  | cons l ls ih =>
    intro st st' ns ways h n hn
    obtain ⟨r1, r2, h1, h2, hst, hns, hways⟩ := runLines_cons_ok st l ls st' ns ways h
    obtain ⟨e1, -, -, -⟩ := addLinestring_ok st l r1.1 r1.2.1 r1.2.2 h1
    subst hns
    rcases List.mem_append.1 hn with hmem | hmem
    · rw [e1] at hmem
      obtain ⟨c0, hc0, hloc⟩ := snapLine_origin l st n hmem
      exact ⟨c0, by simp [List.flatten_cons, List.mem_append, hc0], hloc⟩
    · obtain ⟨c0, hc0, hloc⟩ := ih r1.1 r2.1 r2.2.1 r2.2.2 h2 n hmem
      exact ⟨c0, by simp [List.flatten_cons, List.mem_append, hc0], hloc⟩

theorem fmtLoop_total (osmData : List (ℤ × WayData)) (ls : List Coord)
    (hls : ls ≠ []) :
    ∀ (best : Option Tags) (m : ℚ), ∃ r, fmtLoop ls osmData best m = .ok r := by
  induction osmData with
  | nil => intro best m; exact ⟨(best, m), rfl⟩
  | cons e rest ih =>
    intro best m
    have h0 : ¬ ls.length = 0 := by
      simpa [List.length_eq_zero] using hls
    unfold fmtLoop
    rw [if_neg h0]
    by_cases hc : m < ratioOf ls ((e.2.coords).map quant6)
    · rw [if_pos hc]
      exact ih _ _
    · rw [if_neg hc]
      exact ih _ _

theorem fmtLoop_err (osmData : List (ℤ × WayData)) (hosm : osmData ≠ []) :
    ∀ (best : Option Tags) (m : ℚ), fmtLoop [] osmData best m = .error () := by
  cases osmData with
  | nil => exact absurd rfl hosm
  | cons e rest => intro best m; simp [fmtLoop]

theorem fmtLoop_bound (osmData : List (ℤ × WayData)) (ls : List Coord) (bound : ℚ) :
    ∀ (best : Option Tags) (m : ℚ),
      m ≤ bound
        → (∀ e ∈ osmData, ratioOf ls ((e.2.coords).map quant6) ≤ bound)
        → (ls = [] → osmData = [])
        → ∃ b m2, fmtLoop ls osmData best m = .ok (b, m2) ∧ m2 ≤ bound := by
  induction osmData with
  | nil => intro best m hm _ _; exact ⟨best, m, rfl, hm⟩
  | cons e rest ih =>
    intro best m hm hall hnil
    have hls : ls ≠ [] := by
      intro hcon
      exact List.noConfusion (hnil hcon)
    have h0 : ¬ ls.length = 0 := by
      simpa [List.length_eq_zero] using hls
    unfold fmtLoop
    rw [if_neg h0]
    by_cases hc : m < ratioOf ls ((e.2.coords).map quant6)
    · rw [if_pos hc]
      exact ih _ _ (hall e (List.mem_cons_self e rest))
        (fun e1 he1 => hall e1 (List.mem_cons_of_mem e he1)) (fun hcon => absurd hcon hls)
    · rw [if_neg hc]
      exact ih _ _ hm
        (fun e1 he1 => hall e1 (List.mem_cons_of_mem e he1)) (fun hcon => absurd hcon hls)

theorem fmtLoop_inv (ls : List Coord) (osmData : List (ℤ × WayData)) :
    ∀ (best b : Option Tags) (m m2 : ℚ),
      fmtLoop ls osmData best m = .ok (b, m2)
        → (b = best ∧ m2 = m
            ∧ ∀ e ∈ osmData, ratioOf ls ((e.2.coords).map quant6) ≤ m)
          ∨ (∃ (i : ℕ) (e : ℤ × WayData), osmData[i]? = some e
              ∧ b = some e.2.tags
              ∧ m2 = ratioOf ls ((e.2.coords).map quant6)
              ∧ m < m2
              ∧ (∀ (j : ℕ) (ej : ℤ × WayData), osmData[j]? = some ej
                  → ratioOf ls ((ej.2.coords).map quant6) ≤ m2)
              ∧ (∀ (j : ℕ) (ej : ℤ × WayData), j < i → osmData[j]? = some ej
                  → ratioOf ls ((ej.2.coords).map quant6) < m2)) := by
  induction osmData with
  | nil =>
    intro best b m m2 h
    unfold fmtLoop at h
    simp only [Except.ok.injEq, Prod.mk.injEq] at h
    left
    refine ⟨h.1.symm, h.2.symm, ?_⟩
    intro e he
    simp at he
  | cons e rest ih =>
    intro best b m m2 h
    unfold fmtLoop at h
    by_cases h0 : ls.length = 0
    · rw [if_pos h0] at h
      exact Except.noConfusion h
    · rw [if_neg h0] at h
      by_cases hc : m < ratioOf ls ((e.2.coords).map quant6)
      · rw [if_pos hc] at h
        rcases ih _ _ _ _ h with ⟨hb, hm2, hall⟩ | ⟨i, e1, hi, hb, hm2, hlt, hall, hfirst⟩
        · right
          refine ⟨0, e, List.getElem?_cons_zero, hb, hm2, hm2 ▸ hc, ?_, ?_⟩
          · intro j ej hj
            cases j with
            | zero =>
              simp only [List.getElem?_cons_zero, Option.some_inj] at hj
              subst hj
              exact le_of_eq hm2.symm
            | succ j =>
              simp only [List.getElem?_cons_succ] at hj
              exact le_trans (hall ej (mem_of_getElem_some hj)) (le_of_eq hm2.symm)
          · intro j ej hj _
            exact absurd hj (Nat.not_lt_zero j)
        · right
          refine ⟨i + 1, e1, by simpa [List.getElem?_cons_succ] using hi, hb, hm2,
            lt_trans hc hlt, ?_, ?_⟩
          · intro j ej hj
            cases j with
            | zero =>
              simp only [List.getElem?_cons_zero, Option.some_inj] at hj
              subst hj
              exact le_of_lt hlt
            | succ j =>
              simp only [List.getElem?_cons_succ] at hj
              exact hall j ej hj
          · intro j ej hjlt hj
            cases j with
            | zero =>
              simp only [List.getElem?_cons_zero, Option.some_inj] at hj
              subst hj
              exact hlt
            | succ j =>
              simp only [List.getElem?_cons_succ] at hj
              exact hfirst j ej (Nat.lt_of_succ_lt_succ hjlt) hj
      · rw [if_neg hc] at h
        have hle : ratioOf ls ((e.2.coords).map quant6) ≤ m := not_lt.1 hc
        rcases ih _ _ _ _ h with ⟨hb, hm2, hall⟩ | ⟨i, e1, hi, hb, hm2, hlt, hall, hfirst⟩
        · left
          refine ⟨hb, hm2, ?_⟩
          intro e1 he1
          rcases List.mem_cons.1 he1 with rfl | he1
          · exact hle
          · exact hall e1 he1
        · right
          refine ⟨i + 1, e1, by simpa [List.getElem?_cons_succ] using hi, hb, hm2, hlt,
            ?_, ?_⟩
          · intro j ej hj
            cases j with
            | zero =>
              simp only [List.getElem?_cons_zero, Option.some_inj] at hj
              subst hj
              exact le_of_lt (lt_of_le_of_lt hle hlt)
            | succ j =>
              simp only [List.getElem?_cons_succ] at hj
              exact hall j ej hj
          · intro j ej hjlt hj
            cases j with
            | zero =>
              simp only [List.getElem?_cons_zero, Option.some_inj] at hj
              subst hj
              exact lt_of_le_of_lt hle hlt
            | succ j =>
              simp only [List.getElem?_cons_succ] at hj
              exact hfirst j ej (Nat.lt_of_succ_lt_succ hjlt) hj

theorem interScore_eq_card (ls ws : List Coord) :
    interScore ls ws = (ls.toFinset ∩ ws.toFinset).card := by
  unfold interScore
  have hnd : ((ls.dedup).filter (fun c => decide (c ∈ ws))).Nodup :=
    (List.nodup_dedup ls).filter _
  rw [← List.toFinset_card_of_nodup hnd]
  congr 1
  ext c
  simp [List.mem_filter, List.mem_dedup, Finset.mem_inter, List.mem_toFinset]

theorem resolved_length (nodes : List (ℤ × Coord)) (refs : List ℤ) :
    (refs.filterMap (fun r => alookup r nodes)).length
      = (refs.filter (fun r => decide (r ∈ nodes.map Prod.fst))).length := by
  induction refs with
  | nil => simp
  | cons r refs ih =>
    by_cases hr : r ∈ nodes.map Prod.fst
    · obtain ⟨v, hv⟩ := Option.isSome_iff_exists.1 ((alookup_isSome_iff nodes r).2 hr)
      simp [List.filterMap_cons, List.filter_cons, hv, hr, ih]
    · have hv : alookup r nodes = none := (alookup_eq_none_iff nodes r).2 hr
      simp [List.filterMap_cons, List.filter_cons, hv, hr, ih]

theorem findMatchingTags_total (osmData : List (ℤ × WayData)) (line : List Coord)
    (h : line ≠ []) : ∃ r, findMatchingTags osmData line = .ok r := by
  have hmap : line.map quant6 ≠ [] := by
    simpa using h
  obtain ⟨⟨b, m⟩, hr⟩ := fmtLoop_total osmData (line.map quant6) hmap none 0
  refine ⟨(if 1/2 < m then b else none), ?_⟩
  unfold findMatchingTags
  rw [hr]

theorem findMatchingTags_err (osmData : List (ℤ × WayData)) (line : List Coord)
    (hl : line = []) (ho : osmData ≠ []) :
    findMatchingTags osmData line = .error () := by
  subst hl
  unfold findMatchingTags
  rw [show (([] : List Coord).map quant6) = [] from rfl,
    fmtLoop_err osmData ho none 0]

theorem findMatchingTags_none (osmData : List (ℤ × WayData)) (line : List Coord)
    (hnil : line = [] → osmData = [])
    (hall : ∀ e ∈ osmData,
      ratioOf (line.map quant6) ((e.2.coords).map quant6) ≤ 1/2) :
    findMatchingTags osmData line = .ok none := by
  obtain ⟨b, m2, hr, hle⟩ := fmtLoop_bound osmData (line.map quant6) (1/2) none 0
    (by norm_num) hall (by intro hmap; exact hnil (by simpa using hmap))
  unfold findMatchingTags
  rw [hr]
  show Except.ok (if 1/2 < m2 then b else none) = Except.ok none
  rw [if_neg (not_lt.2 hle)]

theorem findMatchingTags_some (osmData : List (ℤ × WayData)) (line : List Coord)
    (t : Tags) (h : findMatchingTags osmData line = .ok (some t)) :
    ∃ b m2, fmtLoop (line.map quant6) osmData none 0 = .ok (b, m2)
      ∧ 1/2 < m2 ∧ b = some t := by
  unfold findMatchingTags at h
  revert h
  cases hr : fmtLoop (line.map quant6) osmData none 0 with
  | error e => intro h; exact Except.noConfusion h
  | ok r =>
    obtain ⟨b, m2⟩ := r
    intro h
    have h2 : (if 1/2 < m2 then b else none) = some t := Except.ok.inj h
    by_cases hlt : 1/2 < m2
    · rw [if_pos hlt] at h2
      exact ⟨b, m2, rfl, hlt, h2⟩
    · rw [if_neg hlt] at h2
      exact Option.noConfusion h2

/-- Claim C1, counterexample: on a candidate line with a duplicated coordinate
the code divides the overlap by the raw coordinate count (here 2), not by the
number of distinct quantised coordinates (here 1), so the computed value is
1/2 where the claimed formula `overlap / |L|` gives 1, and the candidate road
is rejected although the claimed formula would accept it. -/
theorem c1_counterexample :
    ratioOf (([((0 : ℚ), (0 : ℚ)), (0, 0)]).map quant6)
        (([((0 : ℚ), (0 : ℚ)), (1, 1)]).map quant6) = 1/2
    ∧ specRatioC1 (([((0 : ℚ), (0 : ℚ)), (0, 0)]).map quant6)
        (([((0 : ℚ), (0 : ℚ)), (1, 1)]).map quant6) = 1
    ∧ findMatchingTags [(1, ⟨[("highway", "primary")], [(0, 0), (1, 1)]⟩)]
        [((0 : ℚ), (0 : ℚ)), (0, 0)] = .ok none := by
  refine ⟨?_, ?_, ?_⟩ <;> with_unfolding_all decide

/-- Claim C1 (amended): for every candidate line and source road,
`find_matching_tags` computes the per-road value as `|L ∩ R| / N`, where `L`
and `R` are the sets of distinct coordinates quantised to 6 decimal places
and `N` is the raw number of coordinates of the line, duplicates included
(not `|L|`). -/
theorem c1_amended_ratio (line ws : List Coord) :
    ratioOf (line.map quant6) (ws.map quant6)
      = (((line.map quant6).toFinset ∩ (ws.map quant6).toFinset).card : ℚ)
          / (line.length : ℚ) := by
  unfold ratioOf
  rw [interScore_eq_card, List.length_map]

/-- Claim C2, counterexample: for the raw coordinate (0.123456789, 0) the
node written to the sink carries the 7-decimal rounded SnapKey value
(0.1234568, 0) — written in lowest terms 154321/1250000 — which differs from
the raw coordinate, contradicting the claim that the raw coordinate is
emitted. -/
theorem c2_counterexample :
    emittedLocs (addLinestring (initCreator []) [((123456789 : ℚ)/1000000000, 0)])
      = [((154321 : ℚ)/1250000, 0)]
    ∧ ((154321 : ℚ)/1250000, (0 : ℚ)) ≠ (((123456789 : ℚ)/1000000000), (0 : ℚ)) := by
  constructor
  · norm_num [emittedLocs, addLinestring, findMatchingTags, fmtLoop, initCreator,
      snapLine, snapStep, alookup, snapKey, roundTo, pyRound]
  · norm_num

/-- Claim C2 (amended): for every coordinate whose SnapKey is new, the
OutputNode written to the sink carries the rounded SnapKey value of the
coordinate that produced it (`osm.Location(*coord_key)` on line 102), not the
raw coordinate. -/
theorem c2_amended_rounded_location (osmData : List (ℤ × WayData))
    (lines : List (List Coord)) (st' : CreatorState) (ns : List OutputNode)
    (ways : List OutputWay)
    (h : runLines (initCreator osmData) lines = .ok (st', ns, ways))
    (n : OutputNode) (hn : n ∈ ns) :
    ∃ c0 ∈ lines.flatten, n.location = snapKey c0 :=
  runLines_origin lines (initCreator osmData) st' ns ways h n hn

theorem c2_amended_rounded_location_witness :
    ∃ c0 ∈ [[((1/4 : ℚ), (0 : ℚ))]].flatten,
      (⟨1, ((1/4 : ℚ), (0 : ℚ))⟩ : OutputNode).location = snapKey c0 :=
  c2_amended_rounded_location [] [[(1/4, 0)]] ⟨[], 2, 2, [((1/4, 0), 1)]⟩
    [⟨1, (1/4, 0)⟩] [⟨1, [1], fallbackTags⟩] (by with_unfolding_all decide)
    ⟨1, (1/4, 0)⟩ (by with_unfolding_all decide)

/-- Claim C3: whenever every source road's per-road value is at most 1/2
(strict threshold, so a best value of exactly 1/2 yields no match — and the
empty index trivially satisfies this), `find_matching_tags` returns no match,
and the way then emitted by `add_linestring` carries exactly the literal
fallback tags highway=unclassified, oneway=no, source=custom_geojson. -/
theorem c3_threshold_fallback (st : CreatorState) (line : List Coord)
    (hnil : line = [] → st.osmData = [])
    (hall : ∀ e ∈ st.osmData,
      ratioOf (line.map quant6) ((e.2.coords).map quant6) ≤ 1/2) :
    findMatchingTags st.osmData line = .ok none
    ∧ ∃ st' ns w, addLinestring st line = .ok (st', ns, w) ∧ w.tags = fallbackTags := by
  have hfm := findMatchingTags_none st.osmData line hnil hall
  exact ⟨hfm, addLinestring_fallback st line hfm⟩

theorem c3_threshold_fallback_witness :
    findMatchingTags
        (initCreator [(1, ⟨[("highway", "primary")], [(0, 0), (9, 9)]⟩)]).osmData
        [((0 : ℚ), (0 : ℚ)), (1, 1)] = .ok none
    ∧ ∃ st' ns w,
        addLinestring (initCreator [(1, ⟨[("highway", "primary")], [(0, 0), (9, 9)]⟩)])
          [((0 : ℚ), (0 : ℚ)), (1, 1)] = .ok (st', ns, w)
        ∧ w.tags = fallbackTags :=
  c3_threshold_fallback (initCreator [(1, ⟨[("highway", "primary")], [(0, 0), (9, 9)]⟩)])
    [(0, 0), (1, 1)] (by with_unfolding_all decide) (by with_unfolding_all decide)

/-- Claim C9: `find_matching_tags` is total on every line with at least one
coordinate (the divisor `len(ls_coords)` is then non-zero, so the
division-by-zero branch is unreachable); on a line with zero coordinates and
a non-empty index it fails with the division-by-zero error. -/
theorem c9_total_nonempty (osmData : List (ℤ × WayData)) (line : List Coord) :
    (line ≠ [] → ∃ r, findMatchingTags osmData line = .ok r)
    ∧ (line = [] → osmData ≠ [] → findMatchingTags osmData line = .error ()) :=
  ⟨fun h => findMatchingTags_total osmData line h,
   fun hl ho => findMatchingTags_err osmData line hl ho⟩

theorem c9_total_nonempty_witness :
    ([((0 : ℚ), (0 : ℚ))] ≠ []
      → ∃ r, findMatchingTags [(1, ⟨[("highway", "primary")], [(0, 0), (1, 1)]⟩)]
          [((0 : ℚ), (0 : ℚ))] = .ok r)
    ∧ ([((0 : ℚ), (0 : ℚ))] = []
      → [((1 : ℤ), (⟨[("highway", "primary")], [(0, 0), (1, 1)]⟩ : WayData))] ≠ []
      → findMatchingTags [(1, ⟨[("highway", "primary")], [(0, 0), (1, 1)]⟩)]
          [((0 : ℚ), (0 : ℚ))] = .error ()) :=
  c9_total_nonempty [(1, ⟨[("highway", "primary")], [(0, 0), (1, 1)]⟩)] [(0, 0)]

/-- Claim C10: when the output file pre-exists and the GeoJSON file is
missing or malformed, `run_conversion` deletes the output file first (lines
124-126 run before the `open`/`json.load` on lines 130-131), so the run
aborts with the old output file already destroyed. -/
theorem c10_output_deleted_before_parse (fs : FS) (osmData : List (ℤ × WayData))
    (hex : fs.outputExists = true) (hgj : fs.geojson = none) :
    (runConversion fs osmData).1.outputExists = false
    ∧ (runConversion fs osmData).2 = .error () := by
  unfold runConversion
  rw [hgj]
  simp [hex]

theorem c10_output_deleted_before_parse_witness :
    ((runConversion ⟨true, none⟩ []).1.outputExists = false)
    ∧ ((runConversion ⟨true, none⟩ []).2 = .error ()) :=
  c10_output_deleted_before_parse ⟨true, none⟩ [] rfl rfl

/-- Claim C4: any two coordinates (in any lines, at any positions) with the
same 7-decimal SnapKey resolve to the identical node reference in the emitted
ways, the reference is actually assigned (isSome), and the emitted node
locations are pairwise distinct, so at most one OutputNode is ever emitted
per SnapKey. -/
theorem c4_snapping_idempotent (osmData : List (ℤ × WayData))
    (lines : List (List Coord)) (st' : CreatorState) (ns : List OutputNode)
    (ways : List OutputWay)
    (h : runLines (initCreator osmData) lines = .ok (st', ns, ways))
    (i j p q : ℕ) (li lj : List Coord) (wi wj : OutputWay) (ci cj : Coord)
    (hli : lines[i]? = some li) (hlj : lines[j]? = some lj)
    (hwi : ways[i]? = some wi) (hwj : ways[j]? = some wj)
    (hci : li[p]? = some ci) (hcj : lj[q]? = some cj)
    (hkey : snapKey ci = snapKey cj) :
    wi.nodes[p]? = wj.nodes[q]? ∧ (wi.nodes[p]?).isSome
    ∧ (ns.map OutputNode.location).Nodup := by
  have hri := (runLines_refs lines (initCreator osmData) st' ns ways h i li wi hli hwi).2
    p ci hci
  have hrj := (runLines_refs lines (initCreator osmData) st' ns ways h j lj wj hlj hwj).2
    q cj hcj
  have hlen := (runLines_refs lines (initCreator osmData) st' ns ways h i li wi hli hwi).1
  refine ⟨by rw [hri, hrj, hkey], ?_, ?_⟩
  · have hp : p < wi.nodes.length := by
      rw [hlen]
      exact (List.getElem?_eq_some_iff.1 hci).1
    rw [List.getElem?_eq_getElem hp]
    rfl
  · have hlocs := (runLines_locs lines (initCreator osmData) st' ns ways h).1
    rw [show (initCreator osmData).nodeCache.map Prod.fst = [] from rfl] at hlocs
    rw [hlocs]
    exact newKeys_nodup _ _

/-- Claim C5: across one run the emitted node ids are exactly 1..K in
emission order (no gaps, no repeats), K is the number of distinct SnapKeys
encountered, and the emitted locations are the distinct SnapKeys in
first-seen order. -/
theorem c5_node_ids_sequential (osmData : List (ℤ × WayData))
    (lines : List (List Coord)) (st' : CreatorState) (ns : List OutputNode)
    (ways : List OutputWay)
    (h : runLines (initCreator osmData) lines = .ok (st', ns, ways)) :
    ns.map OutputNode.id = List.range' 1 ns.length
    ∧ ns.length = ((lines.flatten.map snapKey).toFinset).card
    ∧ ns.map OutputNode.location = newKeys [] (lines.flatten.map snapKey) := by
  have h1 := runLines_nodes lines (initCreator osmData) st' ns ways h
  have h2 := (runLines_locs lines (initCreator osmData) st' ns ways h).1
  rw [show (initCreator osmData).nodeCache.map Prod.fst = [] from rfl] at h2
  refine ⟨?_, ?_, h2⟩
  · have := h1.2
    rw [show (initCreator osmData).nodeId = 1 from rfl] at this
    exact this
  · have hlength : (ns.map OutputNode.location).length = ns.length := by simp
    rw [← hlength, h2, newKeys_nil_length]

/-- Claim C6: the emitted way ids are exactly 1..M in input-line order, where
M is the number of candidate lines after flattening each MultiLineString of
the geometry collection into independent single lines. -/
theorem runConversion_some (fs : FS) (osmData : List (ℤ × WayData))
    (features : List Geometry) (hgj : fs.geojson = some features) :
    runConversion fs osmData
      = (match runLines (initCreator osmData) (collectLinestrings features) with
        | .error e =>
            (if fs.outputExists then { fs with outputExists := false } else fs, .error e)
        | .ok r =>
            ({ (if fs.outputExists then { fs with outputExists := false } else fs) with
                outputExists := true }, .ok (r.2.1, r.2.2))) := by
  unfold runConversion
  rw [hgj]

theorem c6_way_ids_sequential (fs : FS) (osmData : List (ℤ × WayData))
    (features : List Geometry) (fs' : FS) (ns : List OutputNode)
    (ways : List OutputWay)
    (hgj : fs.geojson = some features)
    (h : runConversion fs osmData = (fs', .ok (ns, ways))) :
    ways.map OutputWay.id = List.range' 1 ways.length
    ∧ ways.length = (collectLinestrings features).length := by
  rw [runConversion_some fs osmData features hgj] at h
  revert h
  cases hr : runLines (initCreator osmData) (collectLinestrings features) with
  | error e =>
    intro h
    have h2 : (Except.error e : Except Unit (List OutputNode × List OutputWay))
        = Except.ok (ns, ways) := congrArg Prod.snd h
    exact Except.noConfusion h2
  | ok r =>
    intro h
    have h2 : (Except.ok (r.2.1, r.2.2) : Except Unit (List OutputNode × List OutputWay))
        = Except.ok (ns, ways) := congrArg Prod.snd h
    have h3 : ((r.2.1 : List OutputNode), r.2.2) = (ns, ways) := Except.ok.inj h2
    simp only [Prod.mk.injEq] at h3
    obtain ⟨h4, h5⟩ := h3
    have hw := runLines_wayIds (collectLinestrings features) (initCreator osmData)
      r.1 r.2.1 r.2.2 hr
    rw [← h5]
    exact ⟨hw.1, hw.2.1⟩

/-- Claim C7: a path object is retained by the extractor exactly when its tag
set contains the key highway and at least two of its node references resolve
against the observed nodes; unresolved references are dropped from the
reconstructed geometry, and an unretained path leaves the state unchanged. -/
theorem c7_way_retention (st : ExtractorState) (wid : ℤ) (nodeRefs : List ℤ)
    (tags : Tags) :
    ((wayHandler st wid nodeRefs tags).ways
        = st.ways
            ++ [(wid, ⟨tags, nodeRefs.filterMap (fun r => alookup r st.nodes)⟩)]
      ↔ ("highway" ∈ tags.map Prod.fst
          ∧ 2 ≤ (nodeRefs.filter
              (fun r => decide (r ∈ st.nodes.map Prod.fst))).length))
    ∧ ((wayHandler st wid nodeRefs tags).ways = st.ways
      ↔ ¬ ("highway" ∈ tags.map Prod.fst
          ∧ 2 ≤ (nodeRefs.filter
              (fun r => decide (r ∈ st.nodes.map Prod.fst))).length)) := by
  have hlen := resolved_length st.nodes nodeRefs
  have happ : st.ways
      ++ [(wid, (⟨tags, nodeRefs.filterMap (fun r => alookup r st.nodes)⟩ : WayData))]
      ≠ st.ways := by
    intro hcon
    have := congrArg List.length hcon
    simp at this
  unfold wayHandler
  by_cases hhw : "highway" ∈ tags.map Prod.fst
  · by_cases hge : 2 ≤ (nodeRefs.filterMap (fun r => alookup r st.nodes)).length
    · rw [if_pos hhw, if_pos hge]
      constructor
      · simp only [true_iff, iff_true]
        · exact ⟨hhw, hlen ▸ hge⟩
      · constructor
        · intro hcon
          exact absurd hcon happ
        · intro hcon
          exact absurd ⟨hhw, hlen ▸ hge⟩ hcon
    · rw [if_pos hhw, if_neg hge]
      constructor
      · constructor
        · intro hcon
          exact absurd hcon.symm happ
        · intro hcon
          exact absurd (hlen ▸ hcon.2) hge
      · simp only [true_iff, iff_true]
        intro hcon
        exact absurd (hlen ▸ hcon.2) hge
  · rw [if_neg hhw]
    constructor
    · constructor
      · intro hcon
        exact absurd hcon.symm happ
      · intro hcon
        exact absurd hcon.1 hhw
    · simp only [true_iff, iff_true]
      intro hcon
      exact absurd hcon.1 hhw

/-- Claim C8: when `find_matching_tags` returns tags, they are the tags of
the source road with the strictly highest per-road value in enumeration
order: its value exceeds 1/2, no road's value exceeds it, and every earlier
road's value is strictly below it (first-encountered wins on ties, because
`>` not `≥` is used). -/
theorem c8_first_best_selected (osmData : List (ℤ × WayData)) (line : List Coord)
    (t : Tags) (h : findMatchingTags osmData line = .ok (some t)) :
    ∃ (i : ℕ) (e : ℤ × WayData), osmData[i]? = some e ∧ t = e.2.tags
      ∧ 1/2 < ratioOf (line.map quant6) ((e.2.coords).map quant6)
      ∧ (∀ (j : ℕ) (ej : ℤ × WayData), osmData[j]? = some ej
          → ratioOf (line.map quant6) ((ej.2.coords).map quant6)
              ≤ ratioOf (line.map quant6) ((e.2.coords).map quant6))
      ∧ (∀ (j : ℕ) (ej : ℤ × WayData), j < i → osmData[j]? = some ej
          → ratioOf (line.map quant6) ((ej.2.coords).map quant6)
              < ratioOf (line.map quant6) ((e.2.coords).map quant6)) := by
  obtain ⟨b, m2, hloop, hlt, hb⟩ := findMatchingTags_some osmData line t h
  rcases fmtLoop_inv (line.map quant6) osmData none b 0 m2 hloop with
    ⟨hbn, -, -⟩ | ⟨i, e, hi, hbe, hm2, -, hall, hfirst⟩
  · rw [hb] at hbn
    exact Option.noConfusion hbn
  · rw [hb] at hbe
    refine ⟨i, e, hi, Option.some_inj.1 hbe, ?_, ?_, ?_⟩
    · rw [← hm2]
      exact hlt
    · intro j ej hj
      rw [← hm2]
      exact hall j ej hj
    · intro j ej hjlt hj
      rw [← hm2]
      exact hfirst j ej hjlt hj

theorem c4_snapping_idempotent_witness :
    (⟨1, [1], fallbackTags⟩ : OutputWay).nodes[0]?
        = (⟨2, [1], fallbackTags⟩ : OutputWay).nodes[0]?
    ∧ ((⟨1, [1], fallbackTags⟩ : OutputWay).nodes[0]?).isSome
    ∧ (([⟨1, ((1/4 : ℚ), (0 : ℚ))⟩] : List OutputNode).map OutputNode.location).Nodup :=
  c4_snapping_idempotent [] [[(1/4, 0)], [(250000001/1000000000, 0)]]
    ⟨[], 2, 3, [((1/4, 0), 1)]⟩ [⟨1, (1/4, 0)⟩]
    [⟨1, [1], fallbackTags⟩, ⟨2, [1], fallbackTags⟩]
    (by with_unfolding_all decide) 0 1 0 0
    [(1/4, 0)] [(250000001/1000000000, 0)]
    ⟨1, [1], fallbackTags⟩ ⟨2, [1], fallbackTags⟩
    (1/4, 0) (250000001/1000000000, 0)
    rfl rfl rfl rfl rfl rfl
    (by with_unfolding_all decide)

theorem c5_node_ids_sequential_witness :
    ([(⟨1, ((0 : ℚ), (0 : ℚ))⟩ : OutputNode), ⟨2, (1, 0)⟩].map OutputNode.id
        = List.range' 1 [(⟨1, ((0 : ℚ), (0 : ℚ))⟩ : OutputNode), ⟨2, (1, 0)⟩].length)
    ∧ [(⟨1, ((0 : ℚ), (0 : ℚ))⟩ : OutputNode), ⟨2, (1, 0)⟩].length
        = (([[((0 : ℚ), (0 : ℚ)), (1, 0)]].flatten.map snapKey).toFinset).card
    ∧ [(⟨1, ((0 : ℚ), (0 : ℚ))⟩ : OutputNode), ⟨2, (1, 0)⟩].map OutputNode.location
        = newKeys [] ([[((0 : ℚ), (0 : ℚ)), (1, 0)]].flatten.map snapKey) :=
  c5_node_ids_sequential [] [[(0, 0), (1, 0)]] ⟨[], 3, 2, [((1, 0), 2), ((0, 0), 1)]⟩
    [⟨1, (0, 0)⟩, ⟨2, (1, 0)⟩] [⟨1, [1, 2], fallbackTags⟩]
    (by with_unfolding_all decide)

theorem c6_way_ids_sequential_witness :
    ([(⟨1, [1, 2], fallbackTags⟩ : OutputWay), ⟨2, [3, 4], fallbackTags⟩,
        ⟨3, [5, 6], fallbackTags⟩].map OutputWay.id
      = List.range' 1 [(⟨1, [1, 2], fallbackTags⟩ : OutputWay),
          ⟨2, [3, 4], fallbackTags⟩, ⟨3, [5, 6], fallbackTags⟩].length)
    ∧ [(⟨1, [1, 2], fallbackTags⟩ : OutputWay), ⟨2, [3, 4], fallbackTags⟩,
        ⟨3, [5, 6], fallbackTags⟩].length
      = (collectLinestrings [Geometry.lineString [(0, 0), (1, 0)],
          Geometry.multiLineString [[(2, 0), (3, 0)], [(4, 0), (5, 0)]],
          Geometry.unsupported]).length :=
  c6_way_ids_sequential
    ⟨true, some [Geometry.lineString [(0, 0), (1, 0)],
      Geometry.multiLineString [[(2, 0), (3, 0)], [(4, 0), (5, 0)]],
      Geometry.unsupported]⟩
    []
    [Geometry.lineString [(0, 0), (1, 0)],
      Geometry.multiLineString [[(2, 0), (3, 0)], [(4, 0), (5, 0)]],
      Geometry.unsupported]
    ⟨true, some [Geometry.lineString [(0, 0), (1, 0)],
      Geometry.multiLineString [[(2, 0), (3, 0)], [(4, 0), (5, 0)]],
      Geometry.unsupported]⟩
    [⟨1, (0, 0)⟩, ⟨2, (1, 0)⟩, ⟨3, (2, 0)⟩, ⟨4, (3, 0)⟩, ⟨5, (4, 0)⟩, ⟨6, (5, 0)⟩]
    [⟨1, [1, 2], fallbackTags⟩, ⟨2, [3, 4], fallbackTags⟩, ⟨3, [5, 6], fallbackTags⟩]
    rfl (by with_unfolding_all decide)

theorem c7_way_retention_witness :
    ((wayHandler ⟨[(10, ((0 : ℚ), (0 : ℚ))), (11, (1, 0))], []⟩ 5 [10, 99, 11]
          [("highway", "residential")]).ways
        = ([] : List (ℤ × WayData))
            ++ [(5, ⟨[("highway", "residential")],
                [10, 99, 11].filterMap
                  (fun r => alookup r [((10 : ℤ), ((0 : ℚ), (0 : ℚ))), (11, (1, 0))])⟩)]
      ↔ ("highway" ∈ [("highway", "residential")].map Prod.fst
          ∧ 2 ≤ ([10, 99, 11].filter
              (fun r => decide
                (r ∈ [((10 : ℤ), ((0 : ℚ), (0 : ℚ))), (11, (1, 0))].map Prod.fst))).length))
    ∧ ((wayHandler ⟨[(10, ((0 : ℚ), (0 : ℚ))), (11, (1, 0))], []⟩ 5 [10, 99, 11]
          [("highway", "residential")]).ways = ([] : List (ℤ × WayData))
      ↔ ¬ ("highway" ∈ [("highway", "residential")].map Prod.fst
          ∧ 2 ≤ ([10, 99, 11].filter
              (fun r => decide
                (r ∈ [((10 : ℤ), ((0 : ℚ), (0 : ℚ))), (11, (1, 0))].map Prod.fst))).length)) :=
  c7_way_retention ⟨[(10, (0, 0)), (11, (1, 0))], []⟩ 5 [10, 99, 11]
    [("highway", "residential")]

theorem c8_first_best_selected_witness :
    ∃ (i : ℕ) (e : ℤ × WayData),
      ([((1 : ℤ), (⟨[("highway", "primary")], [(0, 0), (1, 1), (2, 2)]⟩ : WayData)),
        (2, ⟨[("highway", "secondary")], [(0, 0), (1, 1), (9, 9)]⟩)])[i]? = some e
      ∧ [("highway", "primary")] = e.2.tags
      ∧ 1/2 < ratioOf ([((0 : ℚ), (0 : ℚ)), (1, 1)].map quant6) ((e.2.coords).map quant6)
      ∧ (∀ (j : ℕ) (ej : ℤ × WayData),
          ([((1 : ℤ), (⟨[("highway", "primary")], [(0, 0), (1, 1), (2, 2)]⟩ : WayData)),
            (2, ⟨[("highway", "secondary")], [(0, 0), (1, 1), (9, 9)]⟩)])[j]? = some ej
          → ratioOf ([((0 : ℚ), (0 : ℚ)), (1, 1)].map quant6) ((ej.2.coords).map quant6)
              ≤ ratioOf ([((0 : ℚ), (0 : ℚ)), (1, 1)].map quant6) ((e.2.coords).map quant6))
      ∧ (∀ (j : ℕ) (ej : ℤ × WayData), j < i
          → ([((1 : ℤ), (⟨[("highway", "primary")], [(0, 0), (1, 1), (2, 2)]⟩ : WayData)),
              (2, ⟨[("highway", "secondary")], [(0, 0), (1, 1), (9, 9)]⟩)])[j]? = some ej
          → ratioOf ([((0 : ℚ), (0 : ℚ)), (1, 1)].map quant6) ((ej.2.coords).map quant6)
              < ratioOf ([((0 : ℚ), (0 : ℚ)), (1, 1)].map quant6) ((e.2.coords).map quant6)) :=
  c8_first_best_selected
    [(1, ⟨[("highway", "primary")], [(0, 0), (1, 1), (2, 2)]⟩),
      (2, ⟨[("highway", "secondary")], [(0, 0), (1, 1), (9, 9)]⟩)]
    [(0, 0), (1, 1)] [("highway", "primary")]
    (by with_unfolding_all decide)
